import Mathlib

/-!
Verification of the CRC engine of `crc4-play-time`.

The development embeds the computational core of the two source components,
`src/components/ProblemSolver.tsx` and `src/components/CRCEncoder.tsx`:
base conversion helpers, the polynomial registry, the shift-register CRC
division loop shared by `calculateCRC` and `verifyCRC`, the error-injection
bit flipping of `handleInjectError`, and the undetectable-error-vector
construction of `handleGenerateErrorVector`.  JavaScript numbers are modelled
by `Nat`: the register only passes through the 32-bit bitwise operators
`<< | & ^`, so it is kept as the unsigned two's-complement representative,
with the 32-bit wraparound of `<<` written explicitly as `% 2 ^ 32`.
-/

set_option maxHeartbeats 1000000

set_option maxRecDepth 100000

/-- JS `parseInt(bits[i])` for the single character `bits[i]`
(ProblemSolver.tsx line 82/97, CRCEncoder.tsx line 33): the digit value for
the characters '0'-'9' and `NaN` for anything else; a `NaN` operand of the
32-bit `|` behaves as `0`, which is folded into this definition. -/
def jsParseIntDigit (c : Char) : Nat :=
  if c.isDigit then c.toNat - 48 else 0

/-- Value of a hexadecimal digit character, the per-character content of JS
`parseInt(s, radix)` on inputs already validated by the source's regexes
(`^[0-9A-Fa-f]+$` for radix 16, `^[01]+$` for radix 2); `0` elsewhere. -/
def hexVal (c : Char) : Nat :=
  if c.isDigit then c.toNat - 48
  else if 'a' ≤ c ∧ c ≤ 'f' then c.toNat - 87
  else if 'A' ≤ c ∧ c ≤ 'F' then c.toNat - 55
  else 0

/-- Digit characters produced by JS `Number.prototype.toString(base)` for
bases up to 16: '0'-'9' then lowercase 'a'-'f', exactly `Nat.digitChar` on
digits below 16 (`toUpperCase` is applied separately where the source
applies it). -/
def digitToChar (d : Nat) : Char := d.digitChar

/-- Digits of `n` in base `b`, most significant first.  The extra `fuel`
argument makes the recursion structural; any `fuel ≥ n` computes the full
digit list (see `natToDigitsAux_eq_digits`). -/
def natToDigitsAux (b : Nat) : Nat → Nat → List Nat
  | _, 0 => []
  | n, fuel + 1 => if n = 0 then [] else natToDigitsAux b (n / b) fuel ++ [n % b]

/-- JS `n.toString(b)` for a non-negative integer `n`: "0" for zero, else the
base-`b` digits, most significant first. -/
def jsToStringBase (b n : Nat) : String :=
  if n = 0 then "0" else String.mk ((natToDigitsAux b n n).map digitToChar)

/-- JS `n.toString(2)`. -/
def jsToString2 (n : Nat) : String := jsToStringBase 2 n

/-- JS `n.toString(16)`. -/
def jsToString16 (n : Nat) : String := jsToStringBase 16 n

/-- JS `s.padStart(w, "0")`: prepend '0' characters until the length is `w`;
a string already at least `w` long is returned unchanged. -/
def padStart (s : String) (w : Nat) : String :=
  String.mk (List.replicate (w - s.length) '0') ++ s

/-- JS `"0".repeat(w)`. -/
def zerosRepeat (w : Nat) : String := String.mk (List.replicate w '0')

/-- JS `s.toUpperCase()` on ASCII strings. -/
def jsToUpperCase (s : String) : String := String.mk (s.data.map Char.toUpper)

/-- JS `parseInt(s, radix)` on inputs validated by the source's regexes:
plain positional interpretation of the digit characters. -/
def jsParseInt (radix : Nat) (s : String) : Nat :=
  s.data.foldl (fun acc c => acc * radix + hexVal c) 0

/-- One character of the regex character class `[01]`. -/
def isBinaryChar (c : Char) : Bool := c = '0' || c = '1'

/-- The test `/^[01]+$/.test(s)` used by `handleEncode` (ProblemSolver.tsx
line 123, CRCEncoder.tsx line 54) and `handleVerify` (CRCEncoder.tsx
line 66): nonempty and every character '0' or '1'. -/
def isBinaryString (s : String) : Bool := s.length != 0 && s.data.all isBinaryChar

/-- Characters of the regex character class `[0-9A-Fa-f]` used by
`handleEncode` (ProblemSolver.tsx line 117). -/
def hexDigitChars : List Char :=
  ['0', '1', '2', '3', '4', '5', '6', '7', '8', '9',
   'A', 'B', 'C', 'D', 'E', 'F', 'a', 'b', 'c', 'd', 'e', 'f']

/-- Membership in the regex character class `[0-9A-Fa-f]`. -/
def isHexChar (c : Char) : Bool := hexDigitChars.contains c

/-- Propositional form of "every character of `s` is '0' or '1'". -/
def BinaryStr (s : String) : Prop := ∀ c ∈ s.data, c = '0' ∨ c = '1'

instance (s : String) : Decidable (BinaryStr s) := by
  unfold BinaryStr
  infer_instance

/-- One iteration of the shift-register division loop shared by
`calculateCRC` (ProblemSolver.tsx lines 81-88, CRCEncoder.tsx lines 32-47)
and `verifyCRC` (ProblemSolver.tsx lines 96-103):
`register = (register << 1) | bit; if (register & (1 << width)) register ^= polynomial;`.
The JS register is a 32-bit integer, kept here as its unsigned representative,
so `<< 1` is doubling modulo `2 ^ 32`; for the widths below 32 that the
program uses, the truthiness test `register & (1 << width)` is
`testBit width`.  (CRCEncoder.tsx hard-codes `0b10000` for `1 << width` and
`POLYNOMIAL` for `polynomial`; its `calculationSteps` bookkeeping does not
affect the register.) -/
def crcStep (polynomial width : Nat) (register : Nat) (c : Char) : Nat :=
  let r := register * 2 % 2 ^ 32 ||| jsParseIntDigit c
  if r.testBit width then r ^^^ polynomial else r

/-- The conditional XOR at the end of one division-loop iteration, applied to
the already shifted register value; used to factor proofs about `crcStep`. -/
def crcReduce (polynomial width x : Nat) : Nat :=
  if x.testBit width then x ^^^ polynomial else x

/-- The register left by running the division loop over all of `bits`,
starting from `register = 0`. -/
def crcRegister (bits : String) (polynomial width : Nat) : Nat :=
  bits.data.foldl (crcStep polynomial width) 0

/-- Rendering of the final register shared by `calculateCRC` and `verifyCRC`:
`(register & ((1 << width) - 1)).toString(2).padStart(width, "0")`
(ProblemSolver.tsx lines 90 and 105; CRCEncoder.tsx line 49 with the
hard-coded `0b1111` mask). -/
def remainderString (register width : Nat) : String :=
  padStart (jsToString2 (register &&& (2 ^ width - 1))) width

/-- The `CRCPolynomial` registry entry shape (ProblemSolver.tsx lines 12-18). -/
structure CRCPolynomial where
  name : String
  polynomial : Nat
  width : Nat
  binaryStr : String
  formula : String
deriving DecidableEq

/-- The fixed registry `CRC_POLYNOMIALS` (ProblemSolver.tsx lines 20-49). -/
def CRC_POLYNOMIALS : List CRCPolynomial :=
  [{ name := "CRC-4", polynomial := 19, width := 4,
     binaryStr := "10011", formula := "z⁴ + z + 1" },
   { name := "CRC-5-ITU", polynomial := 37, width := 5,
     binaryStr := "100101", formula := "z⁵ + z² + 1" },
   { name := "CRC-7", polynomial := 137, width := 7,
     binaryStr := "10001001", formula := "z⁷ + z³ + 1" },
   { name := "CRC-8", polynomial := 263, width := 8,
     binaryStr := "100000111", formula := "z⁸ + z² + z + 1" }]

namespace ProblemSolver

/-- ProblemSolver.tsx lines 69-71:
`parseInt(hex, 16).toString(2).padStart(hex.length * 4, "0")`. -/
def hexToBinary (hex : String) : String :=
  padStart (jsToString2 (jsParseInt 16 hex)) (hex.length * 4)

/-- ProblemSolver.tsx lines 73-75:
`parseInt(binary, 2).toString(16).toUpperCase()`. -/
def binaryToHex (binary : String) : String :=
  jsToUpperCase (jsToString16 (jsParseInt 2 binary))

/-- ProblemSolver.tsx lines 77-91: append `width` zero bits, run the division
loop, mask and render the remainder. -/
def calculateCRC (data : String) (polynomial width : Nat) : String :=
  remainderString (crcRegister (data ++ zerosRepeat width) polynomial width) width

/-- Result shape of `verifyCRC` (ProblemSolver.tsx lines 106-109). -/
structure VerifyResult where
  isValid : Bool
  remainder : String
deriving DecidableEq

/-- ProblemSolver.tsx lines 93-110: run the division loop directly over the
received codeword; valid iff the rendered remainder is the all-zero string. -/
def verifyCRC (dataWithCRC : String) (polynomial width : Nat) : VerifyResult :=
  let remainder := remainderString (crcRegister dataWithCRC polynomial width) width
  { isValid := remainder == zerosRepeat width, remainder := remainder }

/-- The binary-input branch of `handleEncode` (ProblemSolver.tsx lines
112-138): reject unless the input matches `^[01]+$`, otherwise return the
CRC bits and the codeword `binaryData + crc`.  (The hex branch and the UI
state updates are presentation; `none` models the early `return` after
`toast.error`.) -/
def handleEncodeBinary (config : CRCPolynomial) (binaryInput : String) :
    Option (String × String) :=
  if isBinaryString binaryInput then
    let crc := calculateCRC binaryInput config.polynomial config.width
    some (crc, binaryInput ++ crc)
  else none

/-- The per-position flip of `handleInjectError` (ProblemSolver.tsx lines
153-157): positions in `[0, length)` have their character toggled between
'0' and '1' (a non-'0' character becomes '0'); other positions are ignored. -/
def flipAt (chars : List Char) (pos : Int) : List Char :=
  if 0 ≤ pos ∧ pos < (chars.length : Int) then
    chars.set pos.toNat (if chars.getD pos.toNat '0' = '0' then '1' else '0')
  else chars

/-- The corruption step of `handleInjectError` (ProblemSolver.tsx lines
152-159): flip the parsed positions one after another.  Positions are `Int`
because they come from JS `parseInt` on free text and may be negative. -/
def injectErrors (codeword : String) (positions : List Int) : String :=
  String.mk (positions.foldl flipAt codeword.data)

/-- Result shape of `handleGenerateErrorVector` (ProblemSolver.tsx lines
180-184). -/
structure ErrorVectorResult where
  errorVector : String
  isUndetectable : Bool
deriving DecidableEq

/-- ProblemSolver.tsx lines 170-187: the candidate error vector is
`polynomial.toString(2).padStart(width + 1, "0") + "0".repeat(3)`, and
`isUndetectable` is the `isValid` of `verifyCRC` on it. -/
def handleGenerateErrorVector (config : CRCPolynomial) : ErrorVectorResult :=
  let errorBits :=
    padStart (jsToString2 config.polynomial) (config.width + 1) ++ zerosRepeat 3
  { errorVector := errorBits
    isUndetectable := (verifyCRC errorBits config.polynomial config.width).isValid }

end ProblemSolver

namespace CRCEncoder

/-- CRCEncoder.tsx line 9: `const POLYNOMIAL = 0b10011`. -/
def POLYNOMIAL : Nat := 19

/-- CRCEncoder.tsx line 10: `const CRC_WIDTH = 4`. -/
def CRC_WIDTH : Nat := 4

/-- CRCEncoder.tsx lines 27-51: the fixed CRC-4 instance of the division
loop; `data + "0000"`, the `0b10000` top-bit test, the `0b1111` mask.  The
`calculationSteps` list built alongside is display-only and not modelled. -/
def calculateCRC (data : String) : String :=
  remainderString (crcRegister (data ++ "0000") POLYNOMIAL CRC_WIDTH) CRC_WIDTH

/-- CRCEncoder.tsx lines 53-63: reject unless the input matches `^[01]+$`,
otherwise encode.  `none` models the early `return`. -/
def handleEncode (inputData : String) : Option (String × String) :=
  if isBinaryString inputData then
    let crc := calculateCRC inputData
    some (crc, inputData ++ crc)
  else none

/-- CRCEncoder.tsx lines 65-75: reject unless the input matches `^[01]+$`
and is at least `CRC_WIDTH` long; otherwise recompute the CRC of
`testData.slice(0, -CRC_WIDTH)` and compare it with `testData.slice(-CRC_WIDTH)`
(the two slices are written out on the character list; for
`CRC_WIDTH ≤ length` they are exactly the first `length - CRC_WIDTH` and the
last `CRC_WIDTH` characters). -/
def handleVerify (testData : String) : Option Bool :=
  if isBinaryString testData ∧ ¬ testData.length < CRC_WIDTH then
    let dataWithoutCRC := String.mk (testData.data.take (testData.length - CRC_WIDTH))
    let receivedCRC := String.mk (testData.data.drop (testData.length - CRC_WIDTH))
    some (receivedCRC == calculateCRC dataWithoutCRC)
  else none

end CRCEncoder

/-- Modelled from the spec, §4.1 CRC Division Engine, as quoted by claim C2:
maintain a register (unbounded here, "at least width+1 bits"), initialized
to 0; for each bit, left-shift the register by one and OR in the incoming
bit; if the bit at position `width` is set, XOR the register with
`polynomial`; afterwards the remainder is the register masked to its low
`width` bits, left-padded with zeros to exactly `width` characters. -/
def divideSpec (bits : String) (polynomial width : Nat) : String :=
  let register := bits.data.foldl
    (fun r c =>
      let r2 := r <<< 1 ||| (if c = '1' then 1 else 0)
      if r2.testBit width then r2 ^^^ polynomial else r2) 0
  padStart (jsToString2 (register % 2 ^ width)) width

/-! Bridge between the fuel-driven digit extraction and Mathlib's
little-endian `Nat.digits`, plus facts about the JS-style parsing and
rendering helpers. -/

theorem natToDigitsAux_eq_digits (b : Nat) (hb : 1 < b) (n : Nat) :
    ∀ fuel, n ≤ fuel → natToDigitsAux b n fuel = (Nat.digits b n).reverse := by
  induction n using Nat.strong_induction_on with
  | _ n ih =>
    intro fuel hf
    match fuel with
    | 0 =>
      have hn : n = 0 := Nat.le_zero.mp hf
      subst hn
      simp [natToDigitsAux]
    | fuel + 1 =>
      by_cases h0 : n = 0
      · subst h0
        simp [natToDigitsAux]
      · have hdiv : n / b < n := Nat.div_lt_self (Nat.pos_of_ne_zero h0) hb
        have hfuel : n / b ≤ fuel := by omega
        simp only [natToDigitsAux, if_neg h0]
        rw [ih (n / b) hdiv fuel hfuel, Nat.digits_def' hb (Nat.pos_of_ne_zero h0),
          List.reverse_cons]

theorem foldl_horner (b : Nat) :
    ∀ (ds : List Nat) (a : Nat),
      ds.foldl (fun acc d => acc * b + d) a
        = a * b ^ ds.length + Nat.ofDigits b ds.reverse := by
  intro ds
  induction ds with
  | nil => intro a; simp [Nat.ofDigits]
  | cons d t ih =>
    intro a
    simp only [List.foldl_cons, List.reverse_cons, List.length_cons]
    rw [ih (a * b + d), Nat.ofDigits_append]
    simp [Nat.ofDigits, pow_succ]
    ring

theorem jsParseInt_eq_ofDigits (b : Nat) (s : String) :
    jsParseInt b s = Nat.ofDigits b (s.data.map hexVal).reverse := by
  have h := foldl_horner b (s.data.map hexVal) 0
  simp only [jsParseInt, zero_mul, zero_add] at h ⊢
  rw [← h, List.foldl_map]

theorem hexVal_digitToChar {d : Nat} (hd : d < 16) : hexVal (digitToChar d) = d := by
  interval_cases d <;> rfl

theorem digitToChar_binary {d : Nat} (hd : d < 2) :
    digitToChar d = '0' ∨ digitToChar d = '1' := by
  interval_cases d
  · exact Or.inl rfl
  · exact Or.inr rfl

theorem isHexChar_iff_mem {c : Char} : isHexChar c = true ↔ c ∈ hexDigitChars := by
  simp [isHexChar]

theorem hexVal_lt_16 {c : Char} (h : isHexChar c = true) : hexVal c < 16 := by
  have hm := isHexChar_iff_mem.mp h
  fin_cases hm <;> decide

theorem hexVal_eq_zero_iff {c : Char} (h : isHexChar c = true) :
    hexVal c = 0 ↔ c = '0' := by
  have hm := isHexChar_iff_mem.mp h
  fin_cases hm <;> decide

theorem toUpper_digitToChar_hexVal {c : Char} (h : isHexChar c = true) :
    Char.toUpper (digitToChar (hexVal c)) = Char.toUpper c := by
  have hm := isHexChar_iff_mem.mp h
  fin_cases hm <;> decide

theorem jsToStringBase_data_of_ne_zero (b : Nat) (hb : 1 < b) {n : Nat} (hn : n ≠ 0) :
    (jsToStringBase b n).data = (Nat.digits b n).reverse.map digitToChar := by
  simp only [jsToStringBase, if_neg hn]
  rw [natToDigitsAux_eq_digits b hb n n le_rfl]

theorem jsParseInt_jsToStringBase (b : Nat) (hb : 1 < b) (hb16 : b ≤ 16) (n : Nat) :
    jsParseInt b (jsToStringBase b n) = n := by
  by_cases hn : n = 0
  · subst hn
    have h0 : jsToStringBase b 0 = "0" := by simp [jsToStringBase]
    have hdata : ("0" : String).data = ['0'] := rfl
    rw [h0]
    simp [jsParseInt, hdata]
    rfl
  · rw [jsParseInt_eq_ofDigits]
    rw [jsToStringBase_data_of_ne_zero b hb hn]
    rw [List.map_map]
    have hmap : (Nat.digits b n).reverse.map (hexVal ∘ digitToChar)
        = (Nat.digits b n).reverse := by
      conv_rhs => rw [← List.map_id ((Nat.digits b n).reverse)]
      apply List.map_congr_left
      intro d hd
      have hdb : d < b := Nat.digits_lt_base hb (List.mem_reverse.mp hd)
      exact hexVal_digitToChar (lt_of_lt_of_le hdb hb16)
    rw [hmap, List.reverse_reverse, Nat.ofDigits_digits]

theorem foldl_parse_replicate_zero (b k : Nat) :
    (List.replicate k '0').foldl (fun acc c => acc * b + hexVal c) 0 = 0 := by
  induction k with
  | zero => rfl
  | succ k ih =>
    rw [List.replicate_succ, List.foldl_cons]
    simpa using ih

theorem jsParseInt_padStart (b : Nat) (s : String) (w : Nat) :
    jsParseInt b (padStart s w) = jsParseInt b s := by
  simp only [jsParseInt, padStart, String.data_append]
  rw [List.foldl_append, foldl_parse_replicate_zero]

theorem jsParseInt_lt_base_pow (b : Nat) (hb : 1 < b) (s : String)
    (h : ∀ c ∈ s.data, hexVal c < b) : jsParseInt b s < b ^ s.length := by
  rw [jsParseInt_eq_ofDigits]
  have hlen : (s.data.map hexVal).reverse.length = s.length := by
    rw [List.length_reverse, List.length_map]
    rfl
  rw [← hlen]
  apply Nat.ofDigits_lt_base_pow_length hb
  intro x hx
  rw [List.mem_reverse] at hx
  obtain ⟨c, hc, rfl⟩ := List.mem_map.mp hx
  exact h c hc

theorem jsParseInt2_padStart_jsToString2 (n w : Nat) :
    jsParseInt 2 (padStart (jsToString2 n) w) = n := by
  rw [jsParseInt_padStart]
  exact jsParseInt_jsToStringBase 2 (by norm_num) (by norm_num) n

theorem padStart_data (s : String) (w : Nat) :
    (padStart s w).data = List.replicate (w - s.length) '0' ++ s.data := by
  simp [padStart]

theorem string_length_eq_data_length (s : String) : s.length = s.data.length := rfl

theorem length_padStart (s : String) (w : Nat) (h : s.length ≤ w) :
    (padStart s w).length = w := by
  rw [string_length_eq_data_length, padStart_data, List.length_append,
    List.length_replicate, ← string_length_eq_data_length]
  omega

theorem jsToString2_length_le {n w : Nat} (hn : n < 2 ^ w) (hw : 1 ≤ w) :
    (jsToString2 n).length ≤ w := by
  by_cases h0 : n = 0
  · subst h0
    simpa [jsToString2, jsToStringBase] using hw
  · rw [string_length_eq_data_length, jsToString2,
      jsToStringBase_data_of_ne_zero 2 (by norm_num) h0, List.length_map,
      List.length_reverse, Nat.digits_len 2 n (by norm_num) h0]
    have := (Nat.lt_pow_iff_log_lt (by norm_num : (1:Nat) < 2) h0).mp hn
    omega

theorem binaryStr_padStart_jsToString2 (n w : Nat) :
    BinaryStr (padStart (jsToString2 n) w) := by
  intro c hc
  rw [padStart_data] at hc
  rcases List.mem_append.mp hc with h | h
  · exact Or.inl (List.eq_of_mem_replicate h)
  · by_cases h0 : n = 0
    · subst h0
      have hdata : (jsToString2 0).data = ['0'] := rfl
      rw [hdata] at h
      simp at h
      exact Or.inl h
    · rw [jsToString2, jsToStringBase_data_of_ne_zero 2 (by norm_num) h0] at h
      obtain ⟨d, hd, rfl⟩ := List.mem_map.mp h
      exact digitToChar_binary (Nat.digits_lt_base (by norm_num) (List.mem_reverse.mp hd))

theorem binary_hexVal_le_one {c : Char} (h : c = '0' ∨ c = '1') : hexVal c ≤ 1 := by
  rcases h with rfl | rfl <;> decide

theorem binary_jsParseIntDigit_eq_hexVal {c : Char} (h : c = '0' ∨ c = '1') :
    jsParseIntDigit c = hexVal c := by
  rcases h with rfl | rfl <;> rfl

theorem binary_digitToChar_hexVal {c : Char} (h : c = '0' ∨ c = '1') :
    digitToChar (hexVal c) = c := by
  rcases h with rfl | rfl <;> rfl

theorem binary_parse_lt (s : String) (hb : BinaryStr s) :
    jsParseInt 2 s < 2 ^ s.length := by
  apply jsParseInt_lt_base_pow 2 (by norm_num)
  intro c hc
  have := binary_hexVal_le_one (hb c hc)
  omega

theorem padStart_zero_string {w : Nat} (hw : 1 ≤ w) :
    padStart "0" w = zerosRepeat w := by
  apply String.ext
  rw [padStart_data, zerosRepeat]
  have hd : ("0" : String).data = ['0'] := rfl
  have hl : ("0" : String).length = 1 := rfl
  rw [hd, hl]
  have : w - 1 + 1 = w := by omega
  calc List.replicate (w - 1) '0' ++ ['0']
      = List.replicate ((w - 1) + 1) '0' := (List.replicate_succ' (w - 1) '0').symm
    _ = (String.mk (List.replicate w '0')).data := by rw [this]

theorem string_mk_data (s : String) : String.mk s.data = s := rfl

theorem fixedlen_roundtrip :
    ∀ l : List Char, (∀ c ∈ l, c = '0' ∨ c = '1') → l ≠ [] →
      padStart (jsToString2 (jsParseInt 2 (String.mk l))) l.length = String.mk l := by
  intro l
  induction l with
  | nil => intro _ h; exact absurd rfl h
  | cons c t ih =>
    intro hb _
    rcases hb c (List.mem_cons_self c t) with hc | hc
    · subst hc
      by_cases ht : t = []
      · subst ht
        decide
      · have hbt : ∀ x ∈ t, x = '0' ∨ x = '1' := fun x hx => hb x (List.mem_cons_of_mem _ hx)
        have hparse : jsParseInt 2 (String.mk ('0' :: t)) = jsParseInt 2 (String.mk t) := by
          simp only [jsParseInt, List.foldl_cons]
          have h00 : (0 : Nat) * 2 + hexVal '0' = 0 := by decide
          rw [h00]
        have hlen : (jsToString2 (jsParseInt 2 (String.mk t))).length ≤ t.length := by
          apply jsToString2_length_le
          · have := binary_parse_lt (String.mk t) (by intro x hx; exact hbt x hx)
            simpa [string_length_eq_data_length] using this
          · have : 0 < t.length := List.length_pos.mpr ht
            omega
        have hih := ih hbt ht
        apply String.ext
        rw [hparse, padStart_data]
        have hlc : ('0' :: t).length - (jsToString2 (jsParseInt 2 (String.mk t))).length
            = (t.length - (jsToString2 (jsParseInt 2 (String.mk t))).length) + 1 := by
          rw [List.length_cons]
          omega
        rw [hlc, List.replicate_succ, List.cons_append]
        have hih2 := congrArg String.data hih
        rw [padStart_data] at hih2
        have hmk : (String.mk ('0' :: t)).data = '0' :: t := rfl
        rw [hmk]
        congr 1
    · subst hc
      -- leading one: the digit list round-trips exactly via digits_ofDigits
      have hball : ∀ d ∈ (('1' :: t).map hexVal).reverse, d < 2 := by
        intro d hd
        rw [List.mem_reverse] at hd
        obtain ⟨x, hx, rfl⟩ := List.mem_map.mp hd
        have := binary_hexVal_le_one (hb x hx)
        omega
      have hrev : (('1' :: t).map hexVal).reverse = (t.map hexVal).reverse ++ [1] := by
        simp [hexVal]
      have hparse : jsParseInt 2 (String.mk ('1' :: t))
          = Nat.ofDigits 2 (('1' :: t).map hexVal).reverse := by
        have := jsParseInt_eq_ofDigits 2 (String.mk ('1' :: t))
        simpa using this
      have hdig : Nat.digits 2 (jsParseInt 2 (String.mk ('1' :: t)))
          = (('1' :: t).map hexVal).reverse := by
        rw [hparse]
        apply Nat.digits_ofDigits 2 (by norm_num) _ hball
        intro hne
        have h1 : (('1' :: t).map hexVal).reverse.getLast? = some 1 := by
          rw [hrev]
          exact List.getLast?_concat _
        rw [List.getLast?_eq_getLast _ hne] at h1
        simp only [Option.some.injEq] at h1
        omega
      have hne0 : jsParseInt 2 (String.mk ('1' :: t)) ≠ 0 := by
        intro h0
        rw [h0] at hdig
        rw [Nat.digits_zero] at hdig
        rw [hrev] at hdig
        exact absurd hdig.symm (by simp)
      have hdata : (jsToString2 (jsParseInt 2 (String.mk ('1' :: t)))).data
          = '1' :: t := by
        rw [jsToString2, jsToStringBase_data_of_ne_zero 2 (by norm_num) hne0, hdig,
          List.reverse_reverse, List.map_map]
        have : ('1' :: t).map (digitToChar ∘ hexVal) = ('1' :: t).map id := by
          apply List.map_congr_left
          intro x hx
          exact binary_digitToChar_hexVal (hb x hx)
        rw [this, List.map_id]
      apply String.ext
      rw [padStart_data, hdata]
      have hlen2 : (jsToString2 (jsParseInt 2 (String.mk ('1' :: t)))).length
          = ('1' :: t).length := by
        rw [string_length_eq_data_length, hdata]
      rw [hlen2, Nat.sub_self, List.replicate_zero, List.nil_append]

/-! Bit-level facts about the shift-register step: the JS expression
`(register << 1) | bit` is plain arithmetic on the small registers that
actually occur, and the conditional XOR is linear over bitwise XOR. -/

theorem two_mul_lor_bit (r b : Nat) (hb : b ≤ 1) : 2 * r ||| b = 2 * r + b := by
  apply Nat.eq_of_testBit_eq
  intro i
  cases i with
  | zero =>
    rw [Nat.testBit_lor]
    simp only [Nat.testBit_zero]
    have h1 : 2 * r % 2 = 0 := by omega
    have h2 : (2 * r + b) % 2 = b % 2 := by omega
    rw [h1, h2]
    simp
  | succ i =>
    rw [Nat.testBit_lor, Nat.testBit_add_one, Nat.testBit_add_one, Nat.testBit_add_one]
    have h1 : 2 * r / 2 = r := by omega
    have h2 : (2 * r + b) / 2 = r := by omega
    have h3 : b / 2 = 0 := by omega
    rw [h1, h2, h3]
    simp

theorem two_mul_add_bit_eq_xor (r b : Nat) (hb : b ≤ 1) : 2 * r + b = 2 * r ^^^ b := by
  apply Nat.eq_of_testBit_eq
  intro i
  cases i with
  | zero =>
    rw [Nat.testBit_xor]
    simp only [Nat.testBit_zero]
    have h1 : 2 * r % 2 = 0 := by omega
    have h2 : (2 * r + b) % 2 = b % 2 := by omega
    rw [h1, h2]
    simp
  | succ i =>
    rw [Nat.testBit_xor, Nat.testBit_add_one, Nat.testBit_add_one, Nat.testBit_add_one]
    have h1 : 2 * r / 2 = r := by omega
    have h2 : (2 * r + b) / 2 = r := by omega
    have h3 : b / 2 = 0 := by omega
    rw [h1, h2, h3]
    simp

theorem two_mul_xor_distrib (x y : Nat) : 2 * (x ^^^ y) = 2 * x ^^^ 2 * y := by
  apply Nat.eq_of_testBit_eq
  intro i
  cases i with
  | zero =>
    rw [Nat.testBit_xor]
    simp only [Nat.testBit_zero]
    have h1 : 2 * (x ^^^ y) % 2 = 0 := by omega
    have h2 : 2 * x % 2 = 0 := by omega
    have h3 : 2 * y % 2 = 0 := by omega
    rw [h1, h2, h3]
    simp
  | succ i =>
    rw [Nat.testBit_xor, Nat.testBit_add_one, Nat.testBit_add_one, Nat.testBit_add_one]
    have h1 : 2 * (x ^^^ y) / 2 = x ^^^ y := by omega
    have h2 : 2 * x / 2 = x := by omega
    have h3 : 2 * y / 2 = y := by omega
    rw [h1, h2, h3, Nat.testBit_xor]

theorem crcStep_eq_reduce (p w r : Nat) (c : Char) (hw : w ≤ 30) (hr : r < 2 ^ w)
    (hc : c = '0' ∨ c = '1') :
    crcStep p w r c = crcReduce p w (2 * r + hexVal c) := by
  have hrn : r < 1073741824 := by
    calc r < 2 ^ w := hr
      _ ≤ 2 ^ 30 := Nat.pow_le_pow_right (by norm_num) hw
      _ = 1073741824 := by norm_num
  have hmod : r * 2 % 2 ^ 32 = r * 2 := by
    apply Nat.mod_eq_of_lt
    calc r * 2 < 1073741824 * 2 := by omega
      _ ≤ 2 ^ 32 := by norm_num
  simp only [crcStep, crcReduce]
  rw [hmod, binary_jsParseIntDigit_eq_hexVal hc, Nat.mul_comm r 2,
    two_mul_lor_bit r (hexVal c) (binary_hexVal_le_one hc)]

theorem crcReduce_lt (p w x : Nat) (hp : p < 2 ^ (w + 1)) (ht : p.testBit w = true)
    (hx : x < 2 ^ (w + 1)) : crcReduce p w x < 2 ^ w := by
  unfold crcReduce
  by_cases hb : x.testBit w = true
  · rw [if_pos hb]
    apply Nat.lt_pow_two_of_testBit
    intro i hi
    rcases Nat.eq_or_lt_of_le hi with rfl | hlt
    · rw [Nat.testBit_xor, hb, ht]
      rfl
    · rw [Nat.testBit_xor]
      have hxi : x.testBit i = false :=
        Nat.testBit_lt_two_pow
          (lt_of_lt_of_le hx (Nat.pow_le_pow_right (by norm_num) hlt))
      have hpi : p.testBit i = false :=
        Nat.testBit_lt_two_pow
          (lt_of_lt_of_le hp (Nat.pow_le_pow_right (by norm_num) hlt))
      rw [hxi, hpi]
      rfl
  · rw [if_neg hb]
    apply Nat.lt_pow_two_of_testBit
    intro i hi
    rcases Nat.eq_or_lt_of_le hi with rfl | hlt
    · exact Bool.eq_false_iff.mpr hb
    · exact Nat.testBit_lt_two_pow
        (lt_of_lt_of_le hx (Nat.pow_le_pow_right (by norm_num) hlt))

theorem crcReduce_xor (p w a b : Nat) :
    crcReduce p w (a ^^^ b) = crcReduce p w a ^^^ crcReduce p w b := by
  have sh1 : a ^^^ b = (a ^^^ p) ^^^ (b ^^^ p) := by
    apply Nat.eq_of_testBit_eq
    intro i
    simp only [Nat.testBit_xor]
    cases a.testBit i <;> cases b.testBit i <;> cases p.testBit i <;> rfl
  have sh2 : (a ^^^ b) ^^^ p = (a ^^^ p) ^^^ b := by
    apply Nat.eq_of_testBit_eq
    intro i
    simp only [Nat.testBit_xor]
    cases a.testBit i <;> cases b.testBit i <;> cases p.testBit i <;> rfl
  have sh3 : (a ^^^ b) ^^^ p = a ^^^ (b ^^^ p) := Nat.xor_assoc a b p
  unfold crcReduce
  rw [Nat.testBit_xor]
  cases ha : a.testBit w <;> cases hb : b.testBit w
  · simp
  · simp
    exact sh3
  · simp
    exact sh2
  · simp
    exact sh1

theorem crcStep_lt (p w : Nat) (hw : w ≤ 30) (hp : p < 2 ^ (w + 1)) (ht : p.testBit w = true)
    (r : Nat) (hr : r < 2 ^ w) (c : Char) (hc : c = '0' ∨ c = '1') :
    crcStep p w r c < 2 ^ w := by
  rw [crcStep_eq_reduce p w r c hw hr hc]
  apply crcReduce_lt p w _ hp ht
  have hv := binary_hexVal_le_one hc
  have h2 : (2:Nat) ^ (w + 1) = 2 * 2 ^ w := by ring
  omega

theorem crcStep_xor_split (p w : Nat) (hw : w ≤ 30) (r r2 : Nat)
    (hr : r < 2 ^ w) (hr2 : r2 < 2 ^ w) (c : Char) (hc : c = '0' ∨ c = '1') :
    crcStep p w (r ^^^ r2) c = crcStep p w r '0' ^^^ crcStep p w r2 c := by
  have hv := binary_hexVal_le_one hc
  rw [crcStep_eq_reduce p w (r ^^^ r2) c hw (Nat.xor_lt_two_pow hr hr2) hc,
    crcStep_eq_reduce p w r '0' hw hr (Or.inl rfl),
    crcStep_eq_reduce p w r2 c hw hr2 hc]
  have h0 : hexVal '0' = 0 := rfl
  have hx : 2 * (r ^^^ r2) + hexVal c = 2 * r ^^^ (2 * r2 + hexVal c) := by
    calc 2 * (r ^^^ r2) + hexVal c
        = 2 * (r ^^^ r2) ^^^ hexVal c := two_mul_add_bit_eq_xor _ _ hv
      _ = (2 * r ^^^ 2 * r2) ^^^ hexVal c := by rw [two_mul_xor_distrib]
      _ = 2 * r ^^^ (2 * r2 ^^^ hexVal c) := Nat.xor_assoc _ _ _
      _ = 2 * r ^^^ (2 * r2 + hexVal c) := by rw [← two_mul_add_bit_eq_xor _ _ hv]
  rw [hx, h0, Nat.add_zero]
  exact crcReduce_xor p w (2 * r) (2 * r2 + hexVal c)

theorem crcFold_lt (p w : Nat) (hw : w ≤ 30) (hp : p < 2 ^ (w + 1))
    (ht : p.testBit w = true) :
    ∀ (l : List Char), (∀ c ∈ l, c = '0' ∨ c = '1') → ∀ r, r < 2 ^ w →
      l.foldl (crcStep p w) r < 2 ^ w := by
  intro l
  induction l with
  | nil => intro _ r hr; simpa using hr
  | cons c t ih =>
    intro hb r hr
    rw [List.foldl_cons]
    exact ih (fun x hx => hb x (List.mem_cons_of_mem _ hx)) _
      (crcStep_lt p w hw hp ht r hr c (hb c (List.mem_cons_self c t)))

theorem crcFold_xor_split (p w : Nat) (hw : w ≤ 30) (hp : p < 2 ^ (w + 1))
    (ht : p.testBit w = true) :
    ∀ (l : List Char), (∀ c ∈ l, c = '0' ∨ c = '1') → ∀ r r2, r < 2 ^ w → r2 < 2 ^ w →
      l.foldl (crcStep p w) (r ^^^ r2)
        = (List.replicate l.length '0').foldl (crcStep p w) r ^^^ l.foldl (crcStep p w) r2 := by
  intro l
  induction l with
  | nil => intro _ r r2 _ _; rfl
  | cons c t ih =>
    intro hb r r2 hr hr2
    have hc := hb c (List.mem_cons_self c t)
    have hbt : ∀ x ∈ t, x = '0' ∨ x = '1' := fun x hx => hb x (List.mem_cons_of_mem _ hx)
    rw [List.length_cons, List.replicate_succ, List.foldl_cons, List.foldl_cons,
      List.foldl_cons, crcStep_xor_split p w hw r r2 hr hr2 c hc]
    exact ih hbt _ _ (crcStep_lt p w hw hp ht r hr '0' (Or.inl rfl))
      (crcStep_lt p w hw hp ht r2 hr2 c hc)

theorem parse_foldl_ge :
    ∀ (l : List Char) (a : Nat), a ≤ l.foldl (fun acc c => acc * 2 + hexVal c) a := by
  intro l
  induction l with
  | nil => intro a; simp
  | cons c t ih =>
    intro a
    rw [List.foldl_cons]
    calc a ≤ a * 2 + hexVal c := by omega
      _ ≤ _ := ih _

theorem crcFold_load (p w : Nat) (hw : w ≤ 30) :
    ∀ (l : List Char), (∀ c ∈ l, c = '0' ∨ c = '1') → ∀ r,
      l.foldl (fun acc c => acc * 2 + hexVal c) r < 2 ^ w →
      l.foldl (crcStep p w) r = l.foldl (fun acc c => acc * 2 + hexVal c) r := by
  intro l
  induction l with
  | nil => intro _ r _; rfl
  | cons c t ih =>
    intro hb r hload
    have hc := hb c (List.mem_cons_self c t)
    have hbt : ∀ x ∈ t, x = '0' ∨ x = '1' := fun x hx => hb x (List.mem_cons_of_mem _ hx)
    rw [List.foldl_cons] at hload
    rw [List.foldl_cons, List.foldl_cons]
    have hv := binary_hexVal_le_one hc
    have ha2 : r * 2 + hexVal c < 2 ^ w := lt_of_le_of_lt (parse_foldl_ge t _) hload
    have hr : r < 2 ^ w := by omega
    have hstep : crcStep p w r c = r * 2 + hexVal c := by
      rw [crcStep_eq_reduce p w r c hw hr hc]
      unfold crcReduce
      have hfalse : (2 * r + hexVal c).testBit w = false := by
        apply Nat.testBit_lt_two_pow
        omega
      rw [hfalse]
      simp only [Bool.false_eq_true, if_false, ite_false]
      omega
    rw [hstep]
    exact ih hbt _ hload

theorem foldl_congr_inv (f g : Nat → Char → Nat) (P : Nat → Prop)
    (hfg : ∀ r c, P r → (c = '0' ∨ c = '1') → f r c = g r c)
    (hPg : ∀ r c, P r → (c = '0' ∨ c = '1') → P (g r c)) :
    ∀ l : List Char, (∀ c ∈ l, c = '0' ∨ c = '1') → ∀ r, P r →
      l.foldl f r = l.foldl g r := by
  intro l
  induction l with
  | nil => intro _ r _; rfl
  | cons c t ih =>
    intro hb r hP
    have hc := hb c (List.mem_cons_self c t)
    rw [List.foldl_cons, List.foldl_cons, hfg r c hP hc]
    exact ih (fun x hx => hb x (List.mem_cons_of_mem _ hx)) _ (hPg r c hP hc)

theorem specFold_eq_crcFold (p w : Nat) (hw : w ≤ 30) (hp : p < 2 ^ (w + 1))
    (ht : p.testBit w = true) (l : List Char) (hb : ∀ c ∈ l, c = '0' ∨ c = '1')
    (r : Nat) (hr : r < 2 ^ w) :
    l.foldl (fun r c =>
      let r2 := r <<< 1 ||| (if c = '1' then 1 else 0)
      if r2.testBit w then r2 ^^^ p else r2) r
    = l.foldl (crcStep p w) r := by
  apply foldl_congr_inv _ _ (fun r => r < 2 ^ w) _ _ l hb r hr
  · intro r c hP hc
    show (if (r <<< 1 ||| (if c = '1' then 1 else 0)).testBit w
          then (r <<< 1 ||| (if c = '1' then 1 else 0)) ^^^ p
          else (r <<< 1 ||| (if c = '1' then 1 else 0))) = crcStep p w r c
    have hbit : (if c = '1' then 1 else 0) = jsParseIntDigit c := by
      rcases hc with rfl | rfl <;> rfl
    have hshift : r <<< 1 = r * 2 := by
      rw [Nat.shiftLeft_eq]
    have hrn : r < 1073741824 := by
      calc r < 2 ^ w := hP
        _ ≤ 2 ^ 30 := Nat.pow_le_pow_right (by norm_num) hw
        _ = 1073741824 := by norm_num
    have hmod : r * 2 % 2 ^ 32 = r * 2 := by
      apply Nat.mod_eq_of_lt
      calc r * 2 < 1073741824 * 2 := by omega
        _ ≤ 2 ^ 32 := by norm_num
    simp only [crcStep, hbit, hshift, hmod]
  · intro r c hP hc
    exact crcStep_lt p w hw hp ht r hP c hc

theorem remainder_eq_divideSpec (p w : Nat) (hw : w ≤ 30)
    (hp : p < 2 ^ (w + 1)) (ht : p.testBit w = true) (bits : String) (hb : BinaryStr bits) :
    remainderString (crcRegister bits p w) w = divideSpec bits p w := by
  unfold divideSpec remainderString crcRegister
  rw [specFold_eq_crcFold p w hw hp ht bits.data hb 0
    (pow_pos (by norm_num : (0:Nat) < 2) w)]
  rw [Nat.and_pow_two_sub_one_eq_mod]

theorem isBinaryString_eq_true (s : String) (hb : BinaryStr s) (hne : s.data ≠ []) :
    isBinaryString s = true := by
  unfold isBinaryString
  rw [Bool.and_eq_true]
  constructor
  · rw [bne_iff_ne, string_length_eq_data_length]
    exact fun h => hne (List.eq_nil_of_length_eq_zero h)
  · rw [List.all_eq_true]
    intro c hc
    rcases hb c hc with rfl | rfl <;> rfl

theorem isBinaryString_eq_false (s : String) (c : Char) (hc : c ∈ s.data)
    (hbad0 : c ≠ '0') (hbad1 : c ≠ '1') : isBinaryString s = false := by
  apply Bool.eq_false_iff.mpr
  intro h
  unfold isBinaryString at h
  rw [Bool.and_eq_true, List.all_eq_true] at h
  have hcc := h.2 c hc
  simp [isBinaryChar] at hcc
  tauto

theorem crc_roundtrip_general (p w : Nat) (hw1 : 1 ≤ w) (hw : w ≤ 30)
    (hp : p < 2 ^ (w + 1)) (ht : p.testBit w = true) (d : String) (hd : BinaryStr d) :
    ProblemSolver.verifyCRC (d ++ ProblemSolver.calculateCRC d p w) p w
      = { isValid := true, remainder := zerosRepeat w } := by
  have hpow : 0 < 2 ^ w := pow_pos (by norm_num) w
  have hzbin : ∀ c ∈ List.replicate w '0', c = '0' ∨ c = '1' :=
    fun c hc => Or.inl (List.eq_of_mem_replicate hc)
  have hrd : d.data.foldl (crcStep p w) 0 < 2 ^ w :=
    crcFold_lt p w hw hp ht d.data hd 0 hpow
  have hR : (List.replicate w '0').foldl (crcStep p w) (d.data.foldl (crcStep p w) 0)
      < 2 ^ w := crcFold_lt p w hw hp ht _ hzbin _ hrd
  have hcalc : ProblemSolver.calculateCRC d p w
      = padStart (jsToString2 ((List.replicate w '0').foldl (crcStep p w)
          (d.data.foldl (crcStep p w) 0))) w := by
    unfold ProblemSolver.calculateCRC remainderString crcRegister
    rw [String.data_append]
    have hz : (zerosRepeat w).data = List.replicate w '0' := rfl
    rw [hz, List.foldl_append, Nat.and_pow_two_sub_one_eq_mod, Nat.mod_eq_of_lt hR]
  have hbinc : BinaryStr (ProblemSolver.calculateCRC d p w) := by
    rw [hcalc]
    exact binaryStr_padStart_jsToString2 _ w
  have hlenc : (ProblemSolver.calculateCRC d p w).data.length = w := by
    rw [← string_length_eq_data_length, hcalc]
    exact length_padStart _ _ (jsToString2_length_le hR hw1)
  have hparsec : jsParseInt 2 (ProblemSolver.calculateCRC d p w)
      = (List.replicate w '0').foldl (crcStep p w) (d.data.foldl (crcStep p w) 0) := by
    rw [hcalc]
    exact jsParseInt2_padStart_jsToString2 _ w
  have hload : (ProblemSolver.calculateCRC d p w).data.foldl (crcStep p w) 0
      = (List.replicate w '0').foldl (crcStep p w) (d.data.foldl (crcStep p w) 0) := by
    have hb2 : (ProblemSolver.calculateCRC d p w).data.foldl
        (fun acc c => acc * 2 + hexVal c) 0 < 2 ^ w := by
      show jsParseInt 2 (ProblemSolver.calculateCRC d p w) < 2 ^ w
      rw [hparsec]
      exact hR
    have hl := crcFold_load p w hw (ProblemSolver.calculateCRC d p w).data hbinc 0 hb2
    rw [hl]
    exact hparsec
  have hsplit := crcFold_xor_split p w hw hp ht (ProblemSolver.calculateCRC d p w).data
    hbinc (d.data.foldl (crcStep p w) 0) 0 hrd hpow
  rw [Nat.xor_zero] at hsplit
  rw [hlenc, hload] at hsplit
  rw [Nat.xor_self] at hsplit
  have hfinal : (d ++ ProblemSolver.calculateCRC d p w).data.foldl (crcStep p w) 0 = 0 := by
    rw [String.data_append, List.foldl_append]
    exact hsplit
  unfold ProblemSolver.verifyCRC remainderString crcRegister
  rw [hfinal]
  have hmask : (0 : Nat) &&& (2 ^ w - 1) = 0 := Nat.zero_and _
  rw [hmask]
  have hz2 : jsToString2 0 = "0" := rfl
  rw [hz2, padStart_zero_string hw1]
  simp

/-- C1: for every registry config and every non-empty binary string `d`,
encoding `d` (crc = calculateCRC(d, config.polynomial, config.width),
codeword = d ++ crc) and then verifying the unmodified codeword with
`verifyCRC` yields an all-zero remainder and `isValid = true`. -/
theorem crc_roundtrip_registry (cfg : CRCPolynomial) (hcfg : cfg ∈ CRC_POLYNOMIALS)
    (d : String) (hne : d ≠ "") (hd : BinaryStr d) :
    (ProblemSolver.verifyCRC (d ++ ProblemSolver.calculateCRC d cfg.polynomial cfg.width)
        cfg.polynomial cfg.width).remainder = zerosRepeat cfg.width ∧
    (ProblemSolver.verifyCRC (d ++ ProblemSolver.calculateCRC d cfg.polynomial cfg.width)
        cfg.polynomial cfg.width).isValid = true := by
  have hwf : 1 ≤ cfg.width ∧ cfg.width ≤ 30 ∧ cfg.polynomial < 2 ^ (cfg.width + 1)
      ∧ cfg.polynomial.testBit cfg.width = true := by
    fin_cases hcfg <;> exact ⟨by norm_num, by norm_num, by norm_num, by decide⟩
  have h := crc_roundtrip_general cfg.polynomial cfg.width hwf.1 hwf.2.1 hwf.2.2.1
    hwf.2.2.2 d hd
  rw [h]
  exact ⟨rfl, rfl⟩

/-- Witness for `crc_roundtrip_registry`: the CRC-4 registry entry and
`d = "1"`. -/
theorem crc_roundtrip_registry_witness :
    (ProblemSolver.verifyCRC ("1" ++ ProblemSolver.calculateCRC "1" 19 4) 19 4).remainder
        = zerosRepeat 4 ∧
    (ProblemSolver.verifyCRC ("1" ++ ProblemSolver.calculateCRC "1" 19 4) 19 4).isValid
        = true :=
  crc_roundtrip_registry
    { name := "CRC-4", polynomial := 19, width := 4, binaryStr := "10011",
      formula := "z⁴ + z + 1" }
    (by decide) "1" (by decide) (by decide)

/-- C2: for every binary input string the division engine of the source (the
register loop of `verifyCRC`, and `calculateCRC` after appending `width`
zeros) computes exactly the spec's reference algorithm `divideSpec`:
shift each bit in, XOR with the polynomial whenever bit `width` is set, then
mask to the low `width` bits and left-pad to `width` characters.  The
hypotheses say the configuration is a sane CRC setup (top bit of the
polynomial at position `width`, polynomial of `width + 1` bits, width small
enough for the 32-bit register); all registry entries satisfy them. -/
theorem divide_engine_follows_spec (p w : Nat) (hw : w ≤ 30)
    (hp : p < 2 ^ (w + 1)) (ht : p.testBit w = true) :
    (∀ bits : String, BinaryStr bits →
      (ProblemSolver.verifyCRC bits p w).remainder = divideSpec bits p w) ∧
    (∀ data : String, BinaryStr data →
      ProblemSolver.calculateCRC data p w = divideSpec (data ++ zerosRepeat w) p w) := by
  constructor
  · intro bits hb
    show remainderString (crcRegister bits p w) w = divideSpec bits p w
    exact remainder_eq_divideSpec p w hw hp ht bits hb
  · intro data hdata
    show remainderString (crcRegister (data ++ zerosRepeat w) p w) w = _
    apply remainder_eq_divideSpec p w hw hp ht
    intro c hc
    rw [String.data_append] at hc
    rcases List.mem_append.mp hc with h | h
    · exact hdata c h
    · exact Or.inl (List.eq_of_mem_replicate h)

/-- Witness for `divide_engine_follows_spec`: CRC-4 on concrete bit strings. -/
theorem divide_engine_follows_spec_witness :
    (ProblemSolver.verifyCRC "1011010" 19 4).remainder = divideSpec "1011010" 19 4 ∧
    ProblemSolver.calculateCRC "110" 19 4 = divideSpec ("110" ++ zerosRepeat 4) 19 4 :=
  ⟨(divide_engine_follows_spec 19 4 (by norm_num) (by norm_num) (by decide)).1
      "1011010" (by decide),
   (divide_engine_follows_spec 19 4 (by norm_num) (by norm_num) (by decide)).2
      "110" (by decide)⟩

/-- C4: concrete CRC-4 fixture: with generator polynomial 10011 (19) and
width 4, both implementations of `calculateCRC` return remainder "1101" on
data "1010", and the resulting codeword is "10101101". -/
theorem crc4_fixture_1010 :
    CRCEncoder.calculateCRC "1010" = "1101" ∧
    ProblemSolver.calculateCRC "1010" 19 4 = "1101" ∧
    "1010" ++ CRCEncoder.calculateCRC "1010" = "10101101" := by
  decide

/-- C5: for the CRC-4 codeword "10101101" under polynomial 10011, flipping
any single bit at position 0 through 7 and re-verifying yields
`isValid = false` at every position. -/
theorem crc4_single_bit_errors_detected :
    ∀ pos : Nat, pos < 8 →
      (ProblemSolver.verifyCRC
        (ProblemSolver.injectErrors "10101101" [(pos : Int)]) 19 4).isValid = false := by
  decide

/-- Witness for `crc4_single_bit_errors_detected` at position 0. -/
theorem crc4_single_bit_errors_detected_witness :
    (ProblemSolver.verifyCRC (ProblemSolver.injectErrors "10101101" [(0 : Int)])
      19 4).isValid = false :=
  crc4_single_bit_errors_detected 0 (by norm_num)

/-- C6: for every registry config, the generated error vector (the
polynomial's binary representation of length width+1 followed by three
trailing zero bits) divides to an all-zero remainder, so `isUndetectable`
is always true. -/
theorem undetectable_vector_all_configs (cfg : CRCPolynomial)
    (hcfg : cfg ∈ CRC_POLYNOMIALS) :
    (ProblemSolver.handleGenerateErrorVector cfg).isUndetectable = true := by
  fin_cases hcfg <;> decide

/-- Witness for `undetectable_vector_all_configs` at the CRC-4 entry. -/
theorem undetectable_vector_all_configs_witness :
    (ProblemSolver.handleGenerateErrorVector
      { name := "CRC-4", polynomial := 19, width := 4, binaryStr := "10011",
        formula := "z⁴ + z + 1" }).isUndetectable = true :=
  undetectable_vector_all_configs _ (by decide)

theorem binary_parse_lt_list (l : List Char) (hb : ∀ c ∈ l, c = '0' ∨ c = '1') :
    l.foldl (fun acc c => acc * 2 + hexVal c) 0 < 2 ^ l.length :=
  binary_parse_lt (String.mk l) hb

/-- C3: for every binary codeword of length at least the CRC width,
CRCEncoder's verification (recompute the CRC of the leading
`length - width` bits and string-compare it with the trailing `width` bits)
returns valid exactly when dividing the full codeword with ProblemSolver's
`verifyCRC` yields the all-zero remainder. -/
theorem verify_procedures_agree (s : String) (hb : BinaryStr s) (hl : 4 ≤ s.length) :
    CRCEncoder.handleVerify s
      = some ((ProblemSolver.verifyCRC s CRCEncoder.POLYNOMIAL
          CRCEncoder.CRC_WIDTH).isValid) := by
  have hne : s.data ≠ [] := by
    intro h
    rw [string_length_eq_data_length, h] at hl
    simp at hl
  have hbin : isBinaryString s = true := isBinaryString_eq_true s hb hne
  have hbd : ∀ c ∈ s.data.take (s.length - 4), c = '0' ∨ c = '1' :=
    fun c hc => hb c (List.mem_of_mem_take hc)
  have hbt : ∀ c ∈ s.data.drop (s.length - 4), c = '0' ∨ c = '1' :=
    fun c hc => hb c (List.mem_of_mem_drop hc)
  have hlt : (s.data.drop (s.length - 4)).length = 4 := by
    rw [List.length_drop, ← string_length_eq_data_length]
    omega
  have htne : s.data.drop (s.length - 4) ≠ [] := by
    intro h
    rw [h] at hlt
    simp at hlt
  have hzbin : ∀ c ∈ List.replicate 4 '0', c = '0' ∨ c = '1' :=
    fun c hc => Or.inl (List.eq_of_mem_replicate hc)
  have hpow : (0:Nat) < 2 ^ 4 := by norm_num
  have hw30 : (4:Nat) ≤ 30 := by norm_num
  have hp19 : (19:Nat) < 2 ^ (4 + 1) := by norm_num
  have ht19 : (19:Nat).testBit 4 = true := by decide
  have hrd : (s.data.take (s.length - 4)).foldl (crcStep 19 4) 0 < 2 ^ 4 :=
    crcFold_lt 19 4 hw30 hp19 ht19 _ hbd 0 hpow
  have hR : (List.replicate 4 '0').foldl (crcStep 19 4)
      ((s.data.take (s.length - 4)).foldl (crcStep 19 4) 0) < 2 ^ 4 :=
    crcFold_lt 19 4 hw30 hp19 ht19 _ hzbin _ hrd
  have hT : (s.data.drop (s.length - 4)).foldl (fun acc c => acc * 2 + hexVal c) 0
      < 2 ^ 4 := by
    have h0 := binary_parse_lt_list (s.data.drop (s.length - 4)) hbt
    rw [hlt] at h0
    exact h0
  have hsplit_data : s.data = s.data.take (s.length - 4) ++ s.data.drop (s.length - 4) :=
    (List.take_append_drop _ _).symm
  have hF : s.data.foldl (crcStep 19 4) 0
      = (s.data.drop (s.length - 4)).foldl (crcStep 19 4)
          ((s.data.take (s.length - 4)).foldl (crcStep 19 4) 0) := by
    conv_lhs => rw [hsplit_data]
    rw [List.foldl_append]
  have hFsplit : (s.data.drop (s.length - 4)).foldl (crcStep 19 4)
        ((s.data.take (s.length - 4)).foldl (crcStep 19 4) 0)
      = (List.replicate 4 '0').foldl (crcStep 19 4)
          ((s.data.take (s.length - 4)).foldl (crcStep 19 4) 0)
        ^^^ (s.data.drop (s.length - 4)).foldl (fun acc c => acc * 2 + hexVal c) 0 := by
    have h1 := crcFold_xor_split 19 4 hw30 hp19 ht19 _ hbt
      ((s.data.take (s.length - 4)).foldl (crcStep 19 4) 0) 0 hrd hpow
    rw [Nat.xor_zero, hlt] at h1
    rw [h1]
    congr 1
    exact crcFold_load 19 4 hw30 _ hbt 0 hT
  have hRT : (List.replicate 4 '0').foldl (crcStep 19 4)
        ((s.data.take (s.length - 4)).foldl (crcStep 19 4) 0)
      ^^^ (s.data.drop (s.length - 4)).foldl (fun acc c => acc * 2 + hexVal c) 0
      < 2 ^ 4 := Nat.xor_lt_two_pow hR hT
  have hver : (ProblemSolver.verifyCRC s 19 4).isValid
      = (padStart (jsToString2
          ((List.replicate 4 '0').foldl (crcStep 19 4)
            ((s.data.take (s.length - 4)).foldl (crcStep 19 4) 0)
          ^^^ (s.data.drop (s.length - 4)).foldl (fun acc c => acc * 2 + hexVal c) 0)) 4
        == zerosRepeat 4) := by
    show (remainderString (crcRegister s 19 4) 4 == zerosRepeat 4) = _
    unfold crcRegister remainderString
    rw [hF, hFsplit, Nat.and_pow_two_sub_one_eq_mod, Nat.mod_eq_of_lt hRT]
  have henc : CRCEncoder.calculateCRC (String.mk (s.data.take (s.length - 4)))
      = padStart (jsToString2 ((List.replicate 4 '0').foldl (crcStep 19 4)
          ((s.data.take (s.length - 4)).foldl (crcStep 19 4) 0))) 4 := by
    unfold CRCEncoder.calculateCRC CRCEncoder.POLYNOMIAL CRCEncoder.CRC_WIDTH
      remainderString crcRegister
    rw [String.data_append]
    have hmkd : (String.mk (s.data.take (s.length - 4))).data
        = s.data.take (s.length - 4) := rfl
    have h0000 : ("0000" : String).data = List.replicate 4 '0' := rfl
    rw [hmkd, h0000, List.foldl_append, Nat.and_pow_two_sub_one_eq_mod,
      Nat.mod_eq_of_lt hR]
  simp only [CRCEncoder.handleVerify, CRCEncoder.CRC_WIDTH, CRCEncoder.POLYNOMIAL]
  rw [if_pos ⟨hbin, by omega⟩]
  congr 1
  rw [henc, hver]
  apply Bool.coe_iff_coe.mp
  rw [beq_iff_eq, beq_iff_eq]
  have hjs : jsParseInt 2 (String.mk (s.data.drop (s.length - 4)))
      = (s.data.drop (s.length - 4)).foldl (fun acc c => acc * 2 + hexVal c) 0 := rfl
  constructor
  · intro h
    have h1 := congrArg (jsParseInt 2) h
    rw [jsParseInt2_padStart_jsToString2, hjs] at h1
    rw [← h1, Nat.xor_self]
    have hz : jsToString2 0 = "0" := rfl
    rw [hz, padStart_zero_string (by norm_num)]
  · intro h
    have h1 := congrArg (jsParseInt 2) h
    rw [jsParseInt2_padStart_jsToString2] at h1
    have hz0 : jsParseInt 2 (zerosRepeat 4) = 0 := foldl_parse_replicate_zero 2 4
    rw [hz0] at h1
    have hReqT := Nat.xor_eq_zero.mp h1
    have hfix := fixedlen_roundtrip (s.data.drop (s.length - 4)) hbt htne
    rw [hlt, hjs] at hfix
    rw [hReqT]
    exact hfix.symm

/-- Witness for `verify_procedures_agree` at the codeword "10101101". -/
theorem verify_procedures_agree_witness :
    CRCEncoder.handleVerify "10101101"
      = some ((ProblemSolver.verifyCRC "10101101" CRCEncoder.POLYNOMIAL
          CRCEncoder.CRC_WIDTH).isValid) :=
  verify_procedures_agree "10101101" (by decide) (by decide)

/-- C7 counterexample: the valid hexadecimal string "0F" does not round-trip:
`hexToBinary` keeps the leading zero bits but `binaryToHex` re-parses them
away, so the result is "F" while `"0F".toUpperCase()` is "0F". -/
theorem hex_roundtrip_counterexample :
    ProblemSolver.hexToBinary "0F" = "00001111" ∧
    ProblemSolver.binaryToHex (ProblemSolver.hexToBinary "0F") = "F" ∧
    jsToUpperCase "0F" = "0F" ∧
    ProblemSolver.binaryToHex (ProblemSolver.hexToBinary "0F") ≠ jsToUpperCase "0F" := by
  decide

/-- C7 (amended): for every valid hexadecimal string with no leading zero
digit (and short enough that JS `parseInt` is exact, at most 13 digits),
`binaryToHex (hexToBinary h) = h.toUpperCase()`; leading zeros are the only
normalization dropped by the round-trip. -/
theorem hex_roundtrip_no_leading_zero (h : String)
    (hhex : ∀ c ∈ h.data, isHexChar c = true)
    (hne : h.data ≠ [])
    (hlead : h.data.head? ≠ some '0')
    (hlen13 : h.length ≤ 13) :
    ProblemSolver.binaryToHex (ProblemSolver.hexToBinary h) = jsToUpperCase h := by
  obtain ⟨hd, tl, hht⟩ := List.exists_cons_of_ne_nil hne
  have hlead2 : hd ≠ '0' := by
    intro h0
    apply hlead
    rw [hht, h0]
    rfl
  have hdmem : hd ∈ h.data := by
    rw [hht]
    exact List.mem_cons_self _ _
  have hball : ∀ d ∈ (h.data.map hexVal).reverse, d < 16 := by
    intro d hdm
    rw [List.mem_reverse] at hdm
    obtain ⟨c, hc, rfl⟩ := List.mem_map.mp hdm
    exact hexVal_lt_16 (hhex c hc)
  have hrev : (h.data.map hexVal).reverse = (tl.map hexVal).reverse ++ [hexVal hd] := by
    rw [hht]
    simp
  have hlast : ∀ hne2 : (h.data.map hexVal).reverse ≠ [],
      (h.data.map hexVal).reverse.getLast hne2 ≠ 0 := by
    intro hne2
    have h1 : (h.data.map hexVal).reverse.getLast? = some (hexVal hd) := by
      rw [hrev]
      exact List.getLast?_concat _
    rw [List.getLast?_eq_getLast _ hne2] at h1
    simp only [Option.some.injEq] at h1
    rw [h1]
    intro h0
    exact hlead2 ((hexVal_eq_zero_iff (hhex hd hdmem)).mp h0)
  have hdig : Nat.digits 16 (jsParseInt 16 h) = (h.data.map hexVal).reverse := by
    rw [jsParseInt_eq_ofDigits]
    exact Nat.digits_ofDigits 16 (by norm_num) _ hball hlast
  have hne0 : jsParseInt 16 h ≠ 0 := by
    intro h0
    rw [h0, Nat.digits_zero, hrev] at hdig
    exact absurd hdig (by simp)
  have hstep1 : jsParseInt 2 (ProblemSolver.hexToBinary h) = jsParseInt 16 h := by
    unfold ProblemSolver.hexToBinary
    exact jsParseInt2_padStart_jsToString2 _ _
  have hdata16 : (jsToString16 (jsParseInt 16 h)).data
      = h.data.map (digitToChar ∘ hexVal) := by
    rw [jsToString16, jsToStringBase_data_of_ne_zero 16 (by norm_num) hne0, hdig,
      List.reverse_reverse, List.map_map]
  unfold ProblemSolver.binaryToHex
  rw [hstep1]
  apply String.ext
  have hupper : (jsToUpperCase (jsToString16 (jsParseInt 16 h))).data
      = (jsToString16 (jsParseInt 16 h)).data.map Char.toUpper := rfl
  have hupper2 : (jsToUpperCase h).data = h.data.map Char.toUpper := rfl
  rw [hupper, hupper2, hdata16, List.map_map]
  apply List.map_congr_left
  intro c hc
  exact toUpper_digitToChar_hexVal (hhex c hc)

/-- Witness for `hex_roundtrip_no_leading_zero` at h = "B1D". -/
theorem hex_roundtrip_no_leading_zero_witness :
    ProblemSolver.binaryToHex (ProblemSolver.hexToBinary "B1D") = jsToUpperCase "B1D" :=
  hex_roundtrip_no_leading_zero "B1D" (by decide) (by decide) (by decide) (by decide)

/-- C8 counterexample: the division code never fails.  On the non-binary
input "2" (a character other than '0'/'1') both `calculateCRC`
implementations run the division loop on parseInt("2") = 2 and return an
ordinary remainder instead of an `InvalidInput` error, and width 0 (claimed
`InvalidConfig`) also goes through and returns "0". -/
theorem divide_without_validation_counterexample :
    ProblemSolver.calculateCRC "2" 19 4 = "0110" ∧
    CRCEncoder.calculateCRC "2" = "0110" ∧
    ProblemSolver.calculateCRC "1" 19 0 = "0" := by
  decide

/-- C8 (amended): the `calculateCRC` functions themselves perform no
validation and always return a remainder string; the input validation lives
in their callers, which test the regex `^[01]+$` and return before any
division work when the data contains a character other than '0'/'1'.  No
width validation exists anywhere (widths come only from the fixed registry). -/
theorem validation_in_callers (cfg : CRCPolynomial) (s : String) (c : Char)
    (hc : c ∈ s.data) (h0 : c ≠ '0') (h1 : c ≠ '1') :
    ProblemSolver.handleEncodeBinary cfg s = none ∧ CRCEncoder.handleEncode s = none := by
  have hfalse : isBinaryString s = false := isBinaryString_eq_false s c hc h0 h1
  have hcond : ¬ (isBinaryString s = true) := by
    rw [hfalse]
    simp
  constructor
  · unfold ProblemSolver.handleEncodeBinary
    rw [if_neg hcond]
  · unfold CRCEncoder.handleEncode
    rw [if_neg hcond]

/-- Witness for `validation_in_callers` on the input "102". -/
theorem validation_in_callers_witness :
    ProblemSolver.handleEncodeBinary
      { name := "CRC-4", polynomial := 19, width := 4, binaryStr := "10011",
        formula := "z⁴ + z + 1" } "102" = none ∧
    CRCEncoder.handleEncode "102" = none :=
  validation_in_callers _ "102" '2' (by decide) (by decide) (by decide)

theorem set_getElem_self_list (l : List Char) (i : Nat) (h : i < l.length) :
    l.set i l[i] = l := by
  apply List.ext_getElem (by rw [List.length_set])
  intro j hj hj2
  by_cases hij : i = j
  · subst hij
    simp
  · simp [List.getElem_set_ne hij]

theorem flipAt_length (l : List Char) (pos : Int) :
    (ProblemSolver.flipAt l pos).length = l.length := by
  unfold ProblemSolver.flipAt
  by_cases hin : 0 ≤ pos ∧ pos < (l.length : Int)
  · rw [if_pos hin, List.length_set]
  · rw [if_neg hin]

theorem flipAt_binary (l : List Char) (pos : Int)
    (hb : ∀ c ∈ l, c = '0' ∨ c = '1') :
    ∀ c ∈ ProblemSolver.flipAt l pos, c = '0' ∨ c = '1' := by
  unfold ProblemSolver.flipAt
  by_cases hin : 0 ≤ pos ∧ pos < (l.length : Int)
  · rw [if_pos hin]
    intro c hc
    rcases List.mem_or_eq_of_mem_set hc with h | h
    · exact hb c h
    · rw [h]
      by_cases hch : l.getD pos.toNat '0' = '0'
      · rw [if_pos hch]
        exact Or.inr rfl
      · rw [if_neg hch]
        exact Or.inl rfl
  · rw [if_neg hin]
    exact hb

theorem flipAt_flipAt (l : List Char) (pos : Int)
    (hb : ∀ c ∈ l, c = '0' ∨ c = '1') :
    ProblemSolver.flipAt (ProblemSolver.flipAt l pos) pos = l := by
  by_cases hin : 0 ≤ pos ∧ pos < (l.length : Int)
  · have hidx : pos.toNat < l.length := by
      rcases hin with ⟨h0, hlt⟩
      omega
    have h1 : ProblemSolver.flipAt l pos
        = l.set pos.toNat (if l.getD pos.toNat '0' = '0' then '1' else '0') := by
      unfold ProblemSolver.flipAt
      rw [if_pos hin]
    have hlen : (l.set pos.toNat (if l.getD pos.toNat '0' = '0' then '1' else '0')).length
        = l.length := List.length_set _ _ _
    have hget : (l.set pos.toNat (if l.getD pos.toNat '0' = '0' then '1' else '0')).getD
        pos.toNat '0' = (if l.getD pos.toNat '0' = '0' then '1' else '0') := by
      rw [List.getD_eq_getElem?_getD, List.getElem?_set_self hidx]
      rfl
    have hgetl : l.getD pos.toNat '0' = l[pos.toNat] := by
      rw [List.getD_eq_getElem?_getD, List.getElem?_eq_getElem hidx]
      rfl
    have hcmem : l.getD pos.toNat '0' ∈ l := by
      rw [hgetl]
      exact List.getElem_mem hidx
    rw [h1]
    unfold ProblemSolver.flipAt
    rw [if_pos (by rw [hlen]; exact hin), hget, List.set_set]
    have hdouble : (if (if l.getD pos.toNat '0' = '0' then '1' else '0') = '0'
        then '1' else '0') = l.getD pos.toNat '0' := by
      rcases hb _ hcmem with hx | hx <;> rw [hx] <;> rfl
    rw [hdouble, hgetl]
    exact set_getElem_self_list l pos.toNat hidx
  · have h1 : ProblemSolver.flipAt l pos = l := by
      unfold ProblemSolver.flipAt
      rw [if_neg hin]
    rw [h1, h1]

/-- C9: for every binary codeword and every bit position, injecting the same
position an even number of times (in particular, twice) returns the original
codeword unchanged, since each flip is its own inverse. -/
theorem inject_twice_identity (s : String) (hb : BinaryStr s) (p : Int) (k : Nat) :
    ProblemSolver.injectErrors s (List.replicate (2 * k) p) = s := by
  unfold ProblemSolver.injectErrors
  have key : ∀ (m : Nat) (l : List Char), (∀ c ∈ l, c = '0' ∨ c = '1') →
      (List.replicate (2 * m) p).foldl ProblemSolver.flipAt l = l := by
    intro m
    induction m with
    | zero => intro l _; rfl
    | succ m ih =>
      intro l hbl
      have h2 : 2 * (m + 1) = (2 * m) + 1 + 1 := by omega
      rw [h2, List.replicate_succ, List.replicate_succ, List.foldl_cons, List.foldl_cons,
        flipAt_flipAt l p hbl]
      exact ih l hbl
  rw [key k s.data hb]

/-- Witness for `inject_twice_identity`: flip position 0 of "10" twice. -/
theorem inject_twice_identity_witness :
    ProblemSolver.injectErrors "10" (List.replicate (2 * 1) (0 : Int)) = "10" :=
  inject_twice_identity "10" (by decide) 0 1

theorem foldl_flipAt_length :
    ∀ (ps : List Int) (l : List Char),
      (ps.foldl ProblemSolver.flipAt l).length = l.length := by
  intro ps
  induction ps with
  | nil => intro l; rfl
  | cons p t ih =>
    intro l
    rw [List.foldl_cons, ih, flipAt_length]

theorem foldl_flipAt_binary :
    ∀ (ps : List Int) (l : List Char), (∀ c ∈ l, c = '0' ∨ c = '1') →
      ∀ c ∈ ps.foldl ProblemSolver.flipAt l, c = '0' ∨ c = '1' := by
  intro ps
  induction ps with
  | nil => intro l hb; exact hb
  | cons p t ih =>
    intro l hb
    rw [List.foldl_cons]
    exact ih _ (flipAt_binary l p hb)

theorem foldl_flipAt_filter :
    ∀ (ps : List Int) (l : List Char),
      ps.foldl ProblemSolver.flipAt l
        = (ps.filter (fun p => decide (0 ≤ p ∧ p < (l.length : Int)))).foldl
            ProblemSolver.flipAt l := by
  intro ps
  induction ps with
  | nil => intro l; rfl
  | cons p t ih =>
    intro l
    rw [List.foldl_cons, List.filter_cons]
    by_cases hin : 0 ≤ p ∧ p < (l.length : Int)
    · rw [if_pos (by simpa using hin), List.foldl_cons]
      have hlen := flipAt_length l p
      have h1 := ih (ProblemSolver.flipAt l p)
      rw [h1]
      simp only [hlen]
    · have h1 : ProblemSolver.flipAt l p = l := by
        unfold ProblemSolver.flipAt
        rw [if_neg hin]
      rw [if_neg (by simpa using hin), h1]
      exact ih l

/-- C10: error injection preserves the codeword's shape: for every binary
codeword and every list of integer positions, the flipping step returns a
string of the same length whose characters are all '0' or '1', and positions
that are negative or at least the codeword length are ignored (filtering
them out first gives the same result) rather than raising an error. -/
theorem inject_preserves_shape (s : String) (hb : BinaryStr s) (ps : List Int) :
    (ProblemSolver.injectErrors s ps).length = s.length ∧
    BinaryStr (ProblemSolver.injectErrors s ps) ∧
    ProblemSolver.injectErrors s ps
      = ProblemSolver.injectErrors s
          (ps.filter (fun p => decide (0 ≤ p ∧ p < (s.length : Int)))) := by
  refine ⟨?_, ?_, ?_⟩
  · show (String.mk (ps.foldl ProblemSolver.flipAt s.data)).length = s.length
    rw [String.length_mk, foldl_flipAt_length]
    rfl
  · intro c hc
    exact foldl_flipAt_binary ps s.data hb c hc
  · unfold ProblemSolver.injectErrors
    congr 1
    exact foldl_flipAt_filter ps s.data

/-- Witness for `inject_preserves_shape` on "10" with an out-of-range and a
negative position. -/
theorem inject_preserves_shape_witness :
    (ProblemSolver.injectErrors "10" [(-1 : Int), 5, 0]).length = ("10" : String).length ∧
    BinaryStr (ProblemSolver.injectErrors "10" [(-1 : Int), 5, 0]) ∧
    ProblemSolver.injectErrors "10" [(-1 : Int), 5, 0]
      = ProblemSolver.injectErrors "10"
          ([(-1 : Int), 5, 0].filter
            (fun p => decide (0 ≤ p ∧ p < ((("10" : String).length : Int))))) :=
  inject_preserves_shape "10" (by decide) [(-1 : Int), 5, 0]
